import Mathlib

/-!
Verification development for the ScholarNet research-assistant core: the
MCP agent registry and message router (main.py), the research-plan executor
with its search-quota budgeting (backend/agents/research_orchestrator.py),
and the TF-IDF vector store (backend/utils/vector_store.py).

The Python sources are shallowly embedded as Lean functions. External
capabilities (the LLM planner, the web-search provider, the sklearn
vectorizer, uuid/time) are parameters of the embedding. Python dicts are
modelled as insertion-ordered association lists, which matches CPython's
dict semantics (iteration in insertion order, assignment to an existing
key keeps its position, deletion removes the entry).
-/

namespace ScholarNet

/-!
### Stable sorting, modelling Python sorted

Python's sorted(xs, key=k) is a stable ascending sort; with reverse=True
it is a stable descending sort (comparisons are flipped, ties keep their
input order). A stable sort by a total key is extensionally unique, so we
embed it as insertion sort. The relation lt y x means: an already-placed
element y must stay strictly before the incoming element x.
-/

def insertLt (lt : α → α → Bool) (x : α) : List α → List α
  | [] => [x]
  | y :: ys => if lt y x then y :: insertLt lt x ys else x :: y :: ys

def stableSortBy (lt : α → α → Bool) : List α → List α
  | [] => []
  | x :: xs => insertLt lt x (stableSortBy lt xs)

/-!
### Python dicts as insertion-ordered association lists
-/

/-- Dict read, m.get(k) / m[k]: first entry with the key (keys are unique
in every store built by dictSet). -/
def dictGet (m : List (String × β)) (k : String) : Option β :=
  match m with
  | [] => none
  | p :: ps => if p.1 = k then some p.2 else dictGet ps k

/-- Dict assignment m[k] = v: replaces the value in place when the key is
present (keeping its position, as CPython does), appends otherwise. -/
def dictSet (m : List (String × β)) (k : String) (v : β) : List (String × β) :=
  match m with
  | [] => [(k, v)]
  | p :: ps => if p.1 = k then (k, v) :: ps else p :: dictSet ps k v

/-- Dict deletion del m[k]: removes the first entry with the key. -/
def dictDel (m : List (String × β)) (k : String) : List (String × β) :=
  match m with
  | [] => []
  | p :: ps => if p.1 = k then ps else p :: dictDel ps k

/-!
### JSON-like dynamic values

Python values flowing through the bus and the planner are dynamically
typed; this type covers the shapes the sources construct and consume.
Numeric payloads are modelled as integers (the priorities and counts the
code manipulates are integers).
-/

inductive Json where
  | null : Json
  | bool (b : Bool) : Json
  | num (n : Int) : Json
  | str (s : String) : Json
  | arr (items : List Json) : Json
  | obj (fields : List (String × Json)) : Json

/-- Whether Python len() is defined on the value: str, list and dict have
a length; numbers, booleans and None make len raise TypeError. -/
def Json.hasLen : Json → Bool
  | .str _ => true
  | .arr _ => true
  | .obj _ => true
  | _ => false

def Json.isArr : Json → Bool
  | .arr _ => true
  | _ => false

/-- Dict read d.get(k) on a JSON value: none when the value is not an
object or lacks the key. -/
def Json.getField : Json → String → Option Json
  | .obj fields, k => dictGet fields k
  | _, _ => none

/-- Dict read d.get(k, default) restricted to string values, as used for
task_type and input_source. -/
def Json.getStrD (j : Json) (k : String) (d : String) : String :=
  match j.getField k with
  | some (Json.str s) => s
  | _ => d

/-!
### MCP agent registry and message router (main.py, class MCPServer)

Only the registry and point-to-point routing are modelled; the session
table, broadcast and lifecycle paths are not needed by any claim. The
message-handling capability of an agent instance is abstracted as an
optional function that may raise (Except models a Python exception).
-/

structure AgentRecord where
  id : String
  type : String
  handler : Option (Json → Except String Json)
  status : String
  registered_at : Int

structure MCPState where
  agents : List (String × AgentRecord)

/-- Error envelope, the dict containing only an error entry. -/
def errEnvelope (msg : String) : Json := Json.obj [("error", Json.str msg)]

/-- Embedding of MCPServer.register_agent. The identifier is supplied by
the caller (each agent generates its own uuid4 in its constructor before
registering); the registry stores the record under status active and
returns True. The dict operations in the try body cannot raise, so the
except branch returning False is unreachable. The event-loop timestamp is
the parameter now. -/
def register_agent (now : Int) (st : MCPState) (agent_id agent_type : String)
    (handler : Option (Json → Except String Json)) : Bool × MCPState :=
  (true,
    { st with
        agents := dictSet st.agents agent_id
          { id := agent_id, type := agent_type, handler := handler,
            status := "active", registered_at := now } })

/-- Embedding of MCPServer.send_message: an identifier absent from the
registry yields the agent-not-found error envelope; a registered instance
without a handle_message attribute yields an error envelope; an exception
raised by the handler is caught by the enclosing try and converted to an
error envelope. Every path returns an envelope; none propagates a fault. -/
def send_message (st : MCPState) (agent_id : String) (message : Json) : Json :=
  match dictGet st.agents agent_id with
  | none => errEnvelope ("Agent " ++ agent_id ++ " not found")
  | some record =>
      match record.handler with
      | none => errEnvelope ("Agent " ++ agent_id ++ " does not support message handling")
      | some h =>
          match h message with
          | .ok response => response
          | .error e => errEnvelope e

/-!
### Research orchestrator (backend/agents/research_orchestrator.py)
-/

/-- Embedding of _create_default_plan: the fixed three-task fallback. -/
def create_default_plan (query : String) : Json :=
  Json.arr
    [ Json.obj [("task_type", Json.str "web_search"),
        ("search_queries", Json.arr [Json.str query]),
        ("priority", Json.num 1)],
      Json.obj [("task_type", Json.str "summarize"),
        ("input_source", Json.str "search_results"),
        ("priority", Json.num 2)],
      Json.obj [("task_type", Json.str "generate_report"),
        ("input_source", Json.str "summary"),
        ("priority", Json.num 3)] ]

/-- Embedding of _create_research_plan. The planner call and json.loads on
the cleaned response text are abstracted by parsed: none models json.loads
raising (the inner bare except, which substitutes the default plan). When
json.loads succeeds the value is immediately logged through len(plan); on a
value with no len that raises TypeError, which the outer except catches by
returning the default plan. Any other parsed value — object, array or
string, whether or not it is an array of task descriptors — is returned as
the plan without validation. -/
def create_research_plan (parsed : Option Json) (query : String) : Json :=
  match parsed with
  | none => create_default_plan query
  | some j => if j.hasLen then j else create_default_plan query

/-- Sort key x.get('priority', 999) as evaluated inside sorted() in
_execute_research_plan. A plan item that is not a dict (possible when the
plan came from arbitrary JSON) raises AttributeError there; a missing
priority defaults to 999. A present non-numeric priority would compare
under Python's dynamic ordering and raise on the first mixed-type
comparison; it is modelled as raising, the corner no claim depends on. -/
def taskSortKey : Json → Except String Int
  | .obj fields =>
      match dictGet fields "priority" with
      | some (Json.num n) => .ok n
      | none => .ok 999
      | some _ => .error "TypeError: priority values are not comparable"
  | _ => .error "AttributeError: plan item has no attribute get"

/-- Total priority key used once the plan items are known to be sortable
(every item an object with a numeric or absent priority). -/
def taskPriority (j : Json) : Int :=
  match j with
  | .obj fields =>
      match dictGet fields "priority" with
      | some (Json.num n) => n
      | _ => 999
  | _ => 999

/-- Order in which _execute_research_plan processes the plan items:
sorted(plan, key=lambda x: x.get('priority', 999)), a stable ascending
sort on the priority key. -/
def executionOrder (tasks : List Json) : List Json :=
  stableSortBy (fun a b => decide (taskPriority a < taskPriority b)) tasks

/-- Delegate capabilities reached through the bus. Each of the source
delegate methods wraps its body in a try/except returning a default value,
so a delegate call never raises into the execute loop; they are therefore
abstracted as total functions from the task (and the upstream input slot)
to the value stored in the result slot. -/
structure DelegateEnv where
  searchTask : Json → Json
  summarizeTask : Json → Json → Json
  reportTask : Json → Json → Json

/-- Body of the execute loop for one plan item: dispatch on task_type,
writing the delegate's value into the fixed result slot for the kind; an
unknown task_type writes nothing. The body itself cannot raise: the
delegates catch internally and _notify_progress catches internally. -/
def executeStep (env : DelegateEnv) (results : List (String × Json))
    (task : Json) : List (String × Json) :=
  let tt := task.getStrD "task_type" ""
  if tt = "web_search" then
    dictSet results "search_results" (env.searchTask task)
  else if tt = "summarize" then
    let src := task.getStrD "input_source" "search_results"
    let input := (dictGet results src).getD (Json.arr [])
    dictSet results "summary" (env.summarizeTask task input)
  else if tt = "generate_report" then
    let src := task.getStrD "input_source" "summary"
    let input := (dictGet results src).getD (Json.str "")
    dictSet results "report" (env.reportTask task input)
  else results

/-- Iteration of sorted() over the plan value: a list yields its items, a
dict its keys, a string its characters; a number, boolean or None raises
TypeError at sorted() itself. -/
def planItems : Json → Except String (List Json)
  | .arr items => .ok items
  | .obj fields => .ok (fields.map (fun p => Json.str p.1))
  | .str s => .ok (s.data.map (fun c => Json.str (String.mk [c])))
  | _ => .error "TypeError: plan object is not iterable"

/-- Embedding of _execute_research_plan. Python evaluates the sort key for
every item inside the try; if iteration or a key evaluation raises, the
except branch returns the dict holding only an error entry, discarding all
accumulated task results. Once the keys all evaluate, the loop body never
raises, and the loop folds executeStep over the items in executionOrder. -/
def execute_research_plan (env : DelegateEnv) (plan : Json) :
    List (String × Json) :=
  match planItems plan with
  | .error e => [("error", Json.str e)]
  | .ok items =>
      match items.mapM taskSortKey with
      | .error e => [("error", Json.str e)]
      | .ok _ => (executionOrder items).foldl (executeStep env) []

structure TaskRun where
  query : String
  session_id : String
  plan : Json
  status : String
  results : List (String × Json)
  created_at : Int

structure Outcome where
  task_id : String
  status : String
  results : List (String × Json)
  error : Option String

/-- Embedding of handle_research_request. The uuid4 task id and the
event-loop timestamp are the parameters task_id and now; the planner
interaction is the parameter parsed (see create_research_plan). Every
exception source inside the try is itself guarded — _create_research_plan
and _notify_progress catch internally and _execute_research_plan returns
an error dict instead of raising — so the except branch (which would
return a status error outcome with task_id unknown and leave the stored
run untouched) is not reachable from plan-execution faults, and the run is
recorded in_progress and then marked completed unconditionally. -/
def handle_research_request (env : DelegateEnv) (parsed : Option Json)
    (task_id : String) (now : Int) (query session_id : String)
    (active_tasks : List (String × TaskRun)) :
    Outcome × List (String × TaskRun) :=
  let plan := create_research_plan parsed query
  let run : TaskRun :=
    { query := query, session_id := session_id, plan := plan,
      status := "in_progress", results := [], created_at := now }
  let tasks1 := dictSet active_tasks task_id run
  let results := execute_research_plan env plan
  let tasks2 := dictSet tasks1 task_id
    { run with status := "completed", results := results }
  ({ task_id := task_id, status := "completed", results := results,
     error := none }, tasks2)

/-- Delegate environment returning fixed defaults, for concrete runs. -/
def constDelegateEnv : DelegateEnv :=
  { searchTask := fun _ => Json.arr [],
    summarizeTask := fun _ _ => Json.str "",
    reportTask := fun _ _ => Json.str "" }

/-- Concrete run of handle_research_request whose planner response parses
to a JSON array containing a non-dict item, so that the sort-key
evaluation raises inside _execute_research_plan. -/
def handleFaultyPlanRun : Outcome × List (String × TaskRun) :=
  handle_research_request constDelegateEnv (some (Json.arr [Json.num 5]))
    "tid" 0 "q" "sid" []

/-- Registry state holding one registered agent whose handler raises. -/
def failingAgentState : MCPState :=
  { agents := [("a1",
      { id := "a1", type := "search_agent",
        handler := some (fun _ => .error "boom"),
        status := "active", registered_at := 0 })] }

/-!
### Vector store (backend/utils/vector_store.py)

The documents dict maps the md5 content fingerprint to the stored record;
the embeddings dict maps the same fingerprint to a row of the TF-IDF
matrix. The md5 hexdigest is the parameter md5Hex (an arbitrary
deterministic function — none of the properties below needs injectivity
beyond explicit freshness hypotheses). The sklearn vectorizer fit is the
parameter fit: applied to the full list of stored contents it returns
either a row function for the fitted matrix or a raised exception (for
instance the empty-vocabulary ValueError); V is the row type. The
similarity pipeline transform-then-cosine is the parameter sim from the
query string and a stored row to the score, modelled in the rationals.
-/

structure IndexedDoc where
  id : String
  content : String
  metadata : List (String × Json)

structure VectorStore (V : Type) where
  documents : List (String × IndexedDoc)
  embeddings : List (String × V)
  is_fitted : Bool
  vec_fitted : Bool

/-- Initial store of VectorStore.__init__. The flag vec_fitted tracks
whether the underlying sklearn vectorizer object currently holds a
successful fit (so that transform works); unlike _is_fitted it is never
reset, because neither a failed re-fit nor clear() touches the
vectorizer object. -/
def initStore : VectorStore V :=
  { documents := [], embeddings := [], is_fitted := false,
    vec_fitted := false }

/-- Embedding of the loop storing embeddings_matrix[i:i+1] under each
fingerprint, in corpus order starting at row i. -/
def buildEmb (row : Nat → V) (i : Nat) :
    List (String × IndexedDoc) → List (String × V)
  | [] => []
  | p :: ps => (p.1, row i) :: buildEmb row (i + 1) ps

/-- Embedding of _update_embeddings: an empty corpus returns untouched;
otherwise the vectorizer is re-fit on all stored contents. On success the
embeddings dict is cleared and rebuilt in corpus order and _is_fitted is
set; on a raised fit the except sets _is_fitted to False and leaves the
stale embeddings in place. -/
def update_embeddings (fit : List String → Except String (Nat → V))
    (s : VectorStore V) : VectorStore V :=
  if s.documents.isEmpty then s
  else
    match fit (s.documents.map (fun p => p.2.content)) with
    | .ok row =>
        { s with
            is_fitted := true, vec_fitted := true,
            embeddings := buildEmb row 0 s.documents }
    | .error _ => { s with is_fitted := false }

/-- Embedding of add_document: the md5 fingerprint of the content keys the
documents dict; a fingerprint already present is skipped with no mutation
at all; otherwise the document is stored and _update_embeddings runs
immediately — the rebuild is eager, at mutation time. -/
def add_document (md5Hex : String → String)
    (fit : List String → Except String (Nat → V)) (s : VectorStore V)
    (doc_id content : String) (metadata : List (String × Json)) :
    VectorStore V :=
  let h := md5Hex content
  if (dictGet s.documents h).isSome then s
  else
    update_embeddings fit
      { s with
          documents := dictSet s.documents h
            { id := doc_id, content := content, metadata := metadata } }

/-- Embedding of remove_document: linear scan for the first stored
document whose external id matches; when found, the document and its
embedding entry (if present) are deleted and _update_embeddings runs
immediately; returns whether a removal occurred. -/
def remove_document (fit : List String → Except String (Nat → V))
    (s : VectorStore V) (doc_id : String) : Bool × VectorStore V :=
  match s.documents.find? (fun p => decide (p.2.id = doc_id)) with
  | none => (false, s)
  | some p =>
      (true,
        update_embeddings fit
          { s with
              documents := dictDel s.documents p.1,
              embeddings := dictDel s.embeddings p.1 })

/-- Embedding of clear: drops documents and embeddings and resets
_is_fitted; the vectorizer object itself is untouched. -/
def clear (s : VectorStore V) : VectorStore V :=
  { s with documents := [], embeddings := [], is_fitted := false }

/-- Content preview of search results: truncation to 500 characters with
an ellipsis marker exactly when the stored content is longer. -/
def truncateContent (c : String) : String :=
  if c.length > 500 then c.take 500 ++ "..." else c

/-- Similarity rows of the search loop: one triple per stored document
that has an embedding entry, in documents-dict (insertion) order. -/
def scoredCandidates (sim : String → V → ℚ) (s : VectorStore V)
    (query : String) : List (String × ℚ × IndexedDoc) :=
  s.documents.filterMap (fun p =>
    (dictGet s.embeddings p.1).map (fun v => (p.1, sim query v, p.2)))

/-- Order of similarities.sort(key=lambda x: x[1], reverse=True): a stable
descending sort on the score, ties keeping insertion order. -/
def searchOrder (sim : String → V → ℚ) (s : VectorStore V)
    (query : String) : List (String × ℚ × IndexedDoc) :=
  stableSortBy (fun a b => decide (b.2.1 < a.2.1))
    (scoredCandidates sim s query)

structure SearchHit where
  id : String
  score : ℚ
  content : String
  metadata : List (String × Json)

/-- Embedding of search, returning the hits and the store after the lazy
rebuild. An empty corpus returns []; a stale index first runs
_update_embeddings; vectorizer.transform on a vectorizer that has never
been fit raises NotFittedError, caught by the except returning []. The
top_k survivors of the descending stable sort are formatted with the
truncated content preview. -/
def search (fit : List String → Except String (Nat → V))
    (sim : String → V → ℚ) (s : VectorStore V) (query : String)
    (top_k : Nat) : List SearchHit × VectorStore V :=
  if s.documents.isEmpty then ([], s)
  else
    let s1 := if s.is_fitted then s else update_embeddings fit s
    if s1.vec_fitted = false then ([], s1)
    else
      (((searchOrder sim s1 query).take top_k).map (fun t =>
        { id := t.2.2.id, score := t.2.1,
          content := truncateContent t.2.2.content,
          metadata := t.2.2.metadata }), s1)

/-- Mutating operations of the store, for stating invariants over every
store reachable from the initial one. -/
inductive StoreOp where
  | addDoc (doc_id content : String) (metadata : List (String × Json))
  | removeDoc (doc_id : String)
  | clearAll
  | searchFor (query : String) (top_k : Nat)

def runOp (md5Hex : String → String)
    (fit : List String → Except String (Nat → V))
    (sim : String → V → ℚ) (s : VectorStore V) : StoreOp → VectorStore V
  | .addDoc i c m => add_document md5Hex fit s i c m
  | .removeDoc i => (remove_document fit s i).2
  | .clearAll => clear s
  | .searchFor q k => (search fit sim s q k).2

def runOps (md5Hex : String → String)
    (fit : List String → Except String (Nat → V))
    (sim : String → V → ℚ) (ops : List StoreOp) : VectorStore V :=
  ops.foldl (runOp md5Hex fit sim) initStore

/-- Always-succeeding fit returning the zero row, for concrete runs. -/
def okFit : List String → Except String (Nat → ℚ) :=
  fun _ => .ok fun _ => 0

/-- Constant similarity, for concrete runs. -/
def zeroSim : String → ℚ → ℚ := fun _ _ => 0

/-- Store obtained by one add_document on the fresh store (with the md5
hexdigest abstracted as the identity and a succeeding fit). -/
def eagerAddStore : VectorStore ℚ :=
  add_document id okFit initStore "a" "hello" []

/-- Embeddings-documents key agreement: whenever the fitted flag is set,
the embeddings dict has exactly the documents dict's fingerprints as keys,
in the same order. -/
def EmbKeysInv (s : VectorStore V) : Prop :=
  s.is_fitted = true →
    s.embeddings.map Prod.fst = s.documents.map Prod.fst

/-- Well-formedness of the documents dict: every entry is keyed by the
fingerprint of its own content, and keys are unique. -/
def StoreWF (md5Hex : String → String) (s : VectorStore V) : Prop :=
  (∀ p ∈ s.documents, p.1 = md5Hex p.2.content) ∧
    (s.documents.map Prod.fst).Nodup

theorem perm_insertLt (lt : α → α → Bool) (x : α) (l : List α) :
    List.Perm (insertLt lt x l) (x :: l) := by
  induction l with
  | nil => simp [insertLt]
  | cons y ys ih =>
    simp only [insertLt]
    by_cases h : lt y x
    · simp only [h, if_true]
      exact (ih.cons y).trans (List.Perm.swap x y ys)
    · simp [h]

theorem perm_stableSortBy (lt : α → α → Bool) (l : List α) :
    List.Perm (stableSortBy lt l) l := by
  induction l with
  | nil => simp [stableSortBy]
  | cons x xs ih =>
    exact (perm_insertLt lt x (stableSortBy lt xs)).trans (ih.cons x)

theorem mem_insertLt {lt : α → α → Bool} {x z : α} {l : List α}
    (h : z ∈ insertLt lt x l) : z = x ∨ z ∈ l := by
  have := (perm_insertLt lt x l).mem_iff.mp h
  simpa using this

theorem pairwise_insertLt (lt : α → α → Bool)
    (hasym : ∀ a b, lt a b = true → lt b a = false)
    (htrans : ∀ a b c, lt b a = false → lt c b = false → lt c a = false)
    (x : α) (l : List α)
    (hl : l.Pairwise (fun a b => lt b a = false)) :
    (insertLt lt x l).Pairwise (fun a b => lt b a = false) := by
  induction l with
  | nil => simp [insertLt]
  | cons y ys ih =>
    rcases List.pairwise_cons.mp hl with ⟨hy, hys⟩
    simp only [insertLt]
    by_cases h : lt y x
    · simp only [h, if_true]
      refine List.pairwise_cons.mpr ⟨?_, ih hys⟩
      intro z hz
      rcases mem_insertLt hz with rfl | hz
      · exact hasym y z h
      · exact hy z hz
    · simp only [h, if_false]
      have hyx : lt y x = false := by simpa using h
      refine List.pairwise_cons.mpr ⟨?_, hl⟩
      intro z hz
      rcases List.mem_cons.mp hz with rfl | hz2
      · exact hyx
      · exact htrans x y z hyx (hy z hz2)

theorem pairwise_stableSortBy (lt : α → α → Bool)
    (hasym : ∀ a b, lt a b = true → lt b a = false)
    (htrans : ∀ a b c, lt b a = false → lt c b = false → lt c a = false)
    (l : List α) :
    (stableSortBy lt l).Pairwise (fun a b => lt b a = false) := by
  induction l with
  | nil => simp [stableSortBy]
  | cons x xs ih => exact pairwise_insertLt lt hasym htrans x _ ih

theorem filter_insertLt (lt : α → α → Bool) (p : α → Bool)
    (hp : ∀ a b, p a = true → p b = true → lt a b = false)
    (x : α) (l : List α) :
    (insertLt lt x l).filter p =
      if p x then x :: l.filter p else l.filter p := by
  induction l with
  | nil => by_cases hx : p x <;> simp [insertLt, hx]
  | cons y ys ih =>
    simp only [insertLt]
    by_cases h : lt y x
    · simp only [h, if_true]
      by_cases hy : p y
      · by_cases hx : p x
        · exact absurd h (by simp [hp y x hy hx])
        · simp [List.filter_cons, hy, hx, ih, hx]
      · simp [List.filter_cons, hy, ih]
    · simp only [h, if_false]
      by_cases hx : p x <;> simp [List.filter_cons, hx]

theorem filter_stableSortBy (lt : α → α → Bool) (p : α → Bool)
    (hp : ∀ a b, p a = true → p b = true → lt a b = false)
    (l : List α) :
    (stableSortBy lt l).filter p = l.filter p := by
  induction l with
  | nil => simp [stableSortBy]
  | cons x xs ih =>
    simp only [stableSortBy]
    rw [filter_insertLt lt p hp, ih]
    by_cases hx : p x <;> simp [List.filter_cons, hx]

/-!
### Retrieval delegation with quota budgeting

Embedding of ResearchOrchestrator._delegate_search_task. The external
search agent is abstracted by a function respond from a query string to
the list of results it supplies; a response that is falsy or lacks a
result field contributes nothing, which coincides with extending by [].
-/

/-- Constant Config.MAX_SEARCH_RESULTS from backend/utils/config.py. -/
def MAX_SEARCH_RESULTS : Nat := 10

/-- Per-query share math.ceil(M / num_queries) from _delegate_search_task.
Python evaluates the quotient in floating point; at the configured
magnitude (M = 10) that agrees with the exact ceiling modelled here. -/
def results_per_query (M N : Nat) : Nat := (M + N - 1) / N

/-- Dispatch loop of _delegate_search_task: walks the query list in plan
order, breaking before a dispatch as soon as the accumulated length has
reached the quota M. Returns the dispatched requests (query, max_results)
together with the accumulated result list. -/
def searchLoop (M p : Nat) (respond : String → List R) :
    List String → List R → List (String × Nat) × List R
  | [], acc => ([], acc)
  | q :: qs, acc =>
      if M ≤ acc.length then ([], acc)
      else
        ((q, p) :: (searchLoop M p respond qs (acc ++ respond q)).1,
          (searchLoop M p respond qs (acc ++ respond q)).2)

/-- Embedding of _delegate_search_task. When the search agent is not
registered, or the task has no search_queries, the result is []; otherwise
the loop result is trimmed to MAX_SEARCH_RESULTS (parameter M here). -/
def delegate_search_task (agentFound : Bool) (M : Nat)
    (respond : String → List R) (queries : List String) : List R :=
  if agentFound = false then []
  else if queries.isEmpty then []
  else (searchLoop M (results_per_query M queries.length) respond queries []).2.take M

/-- Requests actually dispatched by _delegate_search_task, in dispatch
order, each paired with the max_results value it carried. -/
def dispatchedRequests (agentFound : Bool) (M : Nat)
    (respond : String → List R) (queries : List String) : List (String × Nat) :=
  if agentFound = false then []
  else if queries.isEmpty then []
  else (searchLoop M (results_per_query M queries.length) respond queries []).1

/-- Total length of the responses to a list of dispatched requests. -/
def respLen (respond : String → List R) : List (String × Nat) → Nat
  | [] => 0
  | d :: ds => (respond d.1).length + respLen respond ds

theorem searchLoop_snd_maxRes (M p : Nat) (respond : String → List R) :
    ∀ (qs : List String) (acc : List R),
      ∀ d ∈ (searchLoop M p respond qs acc).1, d.2 = p := by
  intro qs
  induction qs with
  | nil => intro acc d hd; simp [searchLoop] at hd
  | cons q qs ih =>
    intro acc d hd
    simp only [searchLoop] at hd
    by_cases h : M ≤ acc.length
    · simp [h] at hd
    · simp only [h, if_false] at hd
      rcases List.mem_cons.mp hd with rfl | hd2
      · rfl
      · exact ih _ d hd2

theorem searchLoop_fst_prefix (M p : Nat) (respond : String → List R) :
    ∀ (qs : List String) (acc : List R),
      ((searchLoop M p respond qs acc).1.map Prod.fst) <+: qs := by
  intro qs
  induction qs with
  | nil => intro acc; simp [searchLoop]
  | cons q qs ih =>
    intro acc
    simp only [searchLoop]
    by_cases h : M ≤ acc.length
    · simp [h]
    · simp only [h, if_false, List.map_cons]
      obtain ⟨t, ht⟩ := ih (acc ++ respond q)
      exact ⟨t, by simp [ht]⟩

theorem searchLoop_no_overfetch (M p : Nat) (respond : String → List R) :
    ∀ (qs : List String) (acc : List R) (i : Nat),
      i < (searchLoop M p respond qs acc).1.length →
      acc.length + respLen respond ((searchLoop M p respond qs acc).1.take i) < M := by
  intro qs
  induction qs with
  | nil => intro acc i hi; simp [searchLoop] at hi
  | cons q qs ih =>
    intro acc i hi
    simp only [searchLoop] at hi ⊢
    by_cases h : M ≤ acc.length
    · simp [h] at hi
    · simp only [h, if_false] at hi ⊢
      cases i with
      | zero => simpa [respLen] using Nat.lt_of_not_le h
      | succ j =>
        simp only [List.length_cons, Nat.succ_lt_succ_iff] at hi
        have := ih (acc ++ respond q) j hi
        simp only [List.length_append] at this
        simp only [List.take_succ_cons, respLen]
        omega

theorem searchLoop_exhaust_or_quota (M p : Nat) (respond : String → List R) :
    ∀ (qs : List String) (acc : List R),
      (searchLoop M p respond qs acc).1.map Prod.fst = qs ∨
        M ≤ (searchLoop M p respond qs acc).2.length := by
  intro qs
  induction qs with
  | nil => intro acc; left; simp [searchLoop]
  | cons q qs ih =>
    intro acc
    simp only [searchLoop]
    by_cases h : M ≤ acc.length
    · right; simp [h]
    · simp only [h, if_false]
      rcases ih (acc ++ respond q) with h1 | h1
      · left; simp [h1]
      · right; exact h1

theorem searchLoop_enough (M p : Nat) (respond : String → List R) :
    ∀ (qs : List String) (acc : List R),
      (∀ d ∈ (searchLoop M p respond qs acc).1, p ≤ (respond d.1).length) →
      min M (acc.length + p * qs.length) ≤ (searchLoop M p respond qs acc).2.length := by
  intro qs
  induction qs with
  | nil =>
    intro acc _
    simp only [searchLoop, List.length_nil, Nat.mul_zero, Nat.add_zero]
    exact Nat.min_le_right _ _
  | cons q qs ih =>
    intro acc hresp
    simp only [searchLoop] at hresp ⊢
    by_cases h : M ≤ acc.length
    · simp only [h, if_true]
      exact le_trans (Nat.min_le_left _ _) h
    · simp only [h, if_false] at hresp ⊢
      have hq : p ≤ (respond q).length := hresp (q, p) (by simp)
      have hrest : ∀ d ∈ (searchLoop M p respond qs (acc ++ respond q)).1,
          p ≤ (respond d.1).length := fun d hd => hresp d (by simp [hd])
      have hrec := ih (acc ++ respond q) hrest
      simp only [List.length_append] at hrec
      have hstep : acc.length + p * (qs.length + 1) ≤
          acc.length + (respond q).length + p * qs.length := by
        have hms : p * (qs.length + 1) = p * qs.length + p := by ring
        omega
      simp only [List.length_cons]
      exact le_trans (min_le_min (le_refl M) hstep) hrec

theorem quota_ceil_mul (M N : Nat) (hN : 0 < N) :
    M ≤ N * results_per_query M N := by
  unfold results_per_query
  have h1 := Nat.div_add_mod (M + N - 1) N
  have h2 : (M + N - 1) % N < N := Nat.mod_lt _ hN
  generalize hq : N * ((M + N - 1) / N) = t at h1 ⊢
  omega

theorem searchLoop_len (M p : Nat) (respond : String → List R) :
    ∀ (qs : List String) (acc : List R),
      (searchLoop M p respond qs acc).2.length =
        acc.length + respLen respond (searchLoop M p respond qs acc).1 := by
  intro qs
  induction qs with
  | nil => intro acc; simp [searchLoop, respLen]
  | cons q qs ih =>
    intro acc
    simp only [searchLoop]
    by_cases h : M ≤ acc.length
    · simp [h, respLen]
    · simp only [h, if_false, respLen]
      rw [ih (acc ++ respond q)]
      simp only [List.length_append]
      omega

/-- Claim C1: for a retrieval task with a non-empty list of N query strings
and global quota M, every dispatched request carries max_results equal to
ceil(M/N); the dispatched queries form a prefix of the plan's query list
(dispatch in plan order); each dispatch happens only while the accumulated
total is still below M, and dispatching stops only when the query list is
exhausted or the quota is reached; the returned aggregate has length at
most M; and if every dispatched sub-query returns at least ceil(M/N)
results, the aggregate length equals exactly M. -/
theorem search_quota_budgeting {R : Type} (M : Nat)
    (respond : String → List R) (queries : List String)
    (hne : queries ≠ []) :
    (∀ d ∈ dispatchedRequests true M respond queries,
        d.2 = results_per_query M queries.length) ∧
    ((dispatchedRequests true M respond queries).map Prod.fst) <+: queries ∧
    (∀ i, i < (dispatchedRequests true M respond queries).length →
        respLen respond ((dispatchedRequests true M respond queries).take i) < M) ∧
    ((dispatchedRequests true M respond queries).map Prod.fst = queries ∨
        M ≤ respLen respond (dispatchedRequests true M respond queries)) ∧
    (delegate_search_task true M respond queries).length ≤ M ∧
    ((∀ d ∈ dispatchedRequests true M respond queries,
        results_per_query M queries.length ≤ (respond d.1).length) →
      (delegate_search_task true M respond queries).length = M) := by
  have hq : queries.isEmpty = false := by
    cases queries with
    | nil => exact absurd rfl hne
    | cons a l => rfl
  have hN : 0 < queries.length := by
    cases queries with
    | nil => exact absurd rfl hne
    | cons a l => simp
  simp only [dispatchedRequests, delegate_search_task, hq, Bool.false_eq_true,
    if_false, if_neg (by simp : ¬(true = false))]
  set p := results_per_query M queries.length with hp
  refine ⟨?_, ?_, ?_, ?_, ?_, ?_⟩
  · exact searchLoop_snd_maxRes M p respond queries []
  · exact searchLoop_fst_prefix M p respond queries []
  · intro i hi
    have := searchLoop_no_overfetch M p respond queries [] i hi
    simpa using this
  · rcases searchLoop_exhaust_or_quota M p respond queries [] with h1 | h1
    · exact Or.inl h1
    · right
      have hlen := searchLoop_len M p respond queries []
      simp only [List.length_nil, Nat.zero_add] at hlen
      omega
  · simp
  · intro hall
    have h1 := searchLoop_enough M p respond queries [] hall
    have h2 : M ≤ queries.length * p := quota_ceil_mul M queries.length hN
    simp only [List.length_nil, Nat.zero_add] at h1
    have hmul : queries.length * p = p * queries.length := Nat.mul_comm _ _
    have h3 : min M (p * queries.length) = M := by omega
    rw [h3] at h1
    simp [List.length_take]
    omega

/-- Witness for search_quota_budgeting, matching the worked example of the
spec: quota 10 split over 3 sub-queries gives ceil(10/3) = 4 per query;
three responses of 4 results accumulate 12 and are trimmed to exactly 10. -/
theorem search_quota_budgeting_witness :
    (delegate_search_task true 10 (fun _ : String => List.range 4)
        ["a", "b", "c"]).length = 10 :=
  (search_quota_budgeting 10 (fun _ : String => List.range 4) ["a", "b", "c"]
    (by decide)).2.2.2.2.2 (by decide)

theorem dictGet_dictSet (m : List (String × β)) (k : String) (v : β) :
    dictGet (dictSet m k v) k = some v := by
  induction m with
  | nil => simp [dictSet, dictGet]
  | cons p ps ih =>
    simp only [dictSet]
    by_cases h : p.1 = k
    · rw [if_pos h]; simp [dictGet]
    · rw [if_neg h]; simp [dictGet, h, ih]

/-- Counterexample to claim C4: MCPServer.register_agent does not generate
a fresh unique identifier and does not return an identifier. The
identifier is supplied by the caller, the stored record carries exactly
that identifier, the call returns the boolean True, and registering the
same identifier a second time silently overwrites the record (one entry
remains), so no freshness or uniqueness is enforced at registration. -/
theorem register_returns_bool_not_id :
    (register_agent 0 ⟨[]⟩ "caller-chosen-id" "search_agent" none).1 =
        true ∧
    (register_agent 0 ⟨[]⟩ "caller-chosen-id" "search_agent"
        none).2.agents.map Prod.fst = ["caller-chosen-id"] ∧
    (register_agent 0
        (register_agent 0 ⟨[]⟩ "caller-chosen-id" "search_agent" none).2
        "caller-chosen-id" "summarizer_agent" none).2.agents.length = 1 :=
  ⟨rfl, rfl, rfl⟩

/-- Claim C4 as amended: register_agent stores, under the caller-supplied
identifier, a record carrying that identifier, the given role, status
active and the registration timestamp, and returns True; the fresh uuid4
identifier of an agent is generated in the agent's own constructor before
it registers, not by the registry. -/
theorem register_agent_spec (now : Int) (st : MCPState)
    (agent_id agent_type : String)
    (handler : Option (Json → Except String Json)) :
    (register_agent now st agent_id agent_type handler).1 = true ∧
    dictGet (register_agent now st agent_id agent_type handler).2.agents
        agent_id =
      some { id := agent_id, type := agent_type, handler := handler,
             status := "active", registered_at := now } :=
  ⟨rfl, dictGet_dictSet st.agents agent_id _⟩

/-- Claim C8: send_message to an identifier absent from the registry
returns the agent-not-found error envelope, and send_message to a
registered agent whose handler raises returns the exception converted to
an error envelope; the embedding is a total function, so no path
propagates a fault to the caller. -/
theorem send_message_faults (st : MCPState) (agent_id : String)
    (message : Json) :
    (dictGet st.agents agent_id = none →
      send_message st agent_id message =
        errEnvelope ("Agent " ++ agent_id ++ " not found")) ∧
    (∀ (record : AgentRecord) (h : Json → Except String Json) (e : String),
      dictGet st.agents agent_id = some record →
      record.handler = some h → h message = .error e →
      send_message st agent_id message = errEnvelope e) := by
  constructor
  · intro hnone
    simp [send_message, hnone]
  · intro record h e hrec hh he
    simp [send_message, hrec, hh, he]

/-- Witness for send_message_faults: the empty registry yields the
not-found envelope, and a registered agent whose handler raises has the
exception returned as an error envelope. -/
theorem send_message_faults_witness :
    send_message ⟨[]⟩ "ghost" Json.null =
        errEnvelope ("Agent " ++ "ghost" ++ " not found") ∧
    send_message failingAgentState "a1" Json.null = errEnvelope "boom" :=
  ⟨(send_message_faults ⟨[]⟩ "ghost" Json.null).1 rfl,
    (send_message_faults failingAgentState "a1" Json.null).2
      { id := "a1", type := "search_agent",
        handler := some (fun _ => .error "boom"),
        status := "active", registered_at := 0 }
      (fun _ => .error "boom") "boom" rfl rfl rfl⟩

/-- Counterexample to claim C5: a planner response parsing to a JSON
object — a value that is not a JSON array of task descriptors — is
returned as the plan unchanged; the deterministic fallback plan is not
substituted. -/
theorem plan_fallback_counterexample :
    create_research_plan (some (Json.obj [("a", Json.num 1)])) "q" =
        Json.obj [("a", Json.num 1)] ∧
    Json.isArr (Json.obj [("a", Json.num 1)]) = false ∧
    create_research_plan (some (Json.obj [("a", Json.num 1)])) "q" ≠
        create_default_plan "q" := by
  refine ⟨rfl, rfl, ?_⟩
  intro hcontr
  have h2 := congrArg Json.isArr hcontr
  simp [create_research_plan, create_default_plan, Json.isArr,
    Json.hasLen] at h2

/-- Claim C5 as amended: the fallback plan is substituted exactly when
json.loads raises on the planner response or the parsed value has no len
(a number, boolean or null, which makes the logging call raise TypeError
into the outer except); any parsed object, array or string is returned as
the plan without validation. The fallback plan is exactly the three fixed
tasks: web_search with the single original query at priority 1, summarize
with input_source search_results at priority 2, and generate_report with
input_source summary at priority 3. -/
theorem plan_fallback_spec (parsed : Option Json) (query : String) :
    (parsed = none →
      create_research_plan parsed query = create_default_plan query) ∧
    (∀ j, parsed = some j → j.hasLen = false →
      create_research_plan parsed query = create_default_plan query) ∧
    (∀ j, parsed = some j → j.hasLen = true →
      create_research_plan parsed query = j) ∧
    create_default_plan query =
      Json.arr
        [ Json.obj [("task_type", Json.str "web_search"),
            ("search_queries", Json.arr [Json.str query]),
            ("priority", Json.num 1)],
          Json.obj [("task_type", Json.str "summarize"),
            ("input_source", Json.str "search_results"),
            ("priority", Json.num 2)],
          Json.obj [("task_type", Json.str "generate_report"),
            ("input_source", Json.str "summary"),
            ("priority", Json.num 3)] ] := by
  refine ⟨?_, ?_, ?_, rfl⟩
  · intro h; subst h; rfl
  · intro j hj hlen; subst hj; simp [create_research_plan, hlen]
  · intro j hj hlen; subst hj; simp [create_research_plan, hlen]

/-- Witness for plan_fallback_spec: an unparseable response and a parsed
bare number both yield the fallback plan. -/
theorem plan_fallback_spec_witness :
    create_research_plan (some (Json.num 5)) "carbon pricing" =
        create_default_plan "carbon pricing" ∧
    create_research_plan none "carbon pricing" =
        create_default_plan "carbon pricing" :=
  ⟨(plan_fallback_spec (some (Json.num 5)) "carbon pricing").2.1
      (Json.num 5) rfl rfl,
    (plan_fallback_spec none "carbon pricing").1 rfl⟩

/-- Counterexample to claim C2: on a plan whose sort-key evaluation raises
inside _execute_research_plan (a JSON plan containing a non-dict item),
the exception is caught there and converted into a results dict holding
only an error entry; handle_research_request then marks the stored run
completed and returns a completed outcome carrying that dict. The status
is not set to a failed value and no error outcome is produced. -/
theorem handle_no_failed_status :
    handleFaultyPlanRun.1.status = "completed" ∧
    handleFaultyPlanRun.1.error = none ∧
    handleFaultyPlanRun.1.results =
      [("error",
        Json.str "AttributeError: plan item has no attribute get")] ∧
    (dictGet handleFaultyPlanRun.2 "tid").map TaskRun.status =
      some "completed" ∧
    handleFaultyPlanRun.1.status ≠ "failed" :=
  ⟨rfl, rfl, rfl, rfl, by decide⟩

/-- Claim C2 as amended: an exception while executing the plan's tasks is
caught inside _execute_research_plan, which returns the mapping holding
only an error entry instead of raising; handle_research_request therefore
always sets the stored run's status to completed and returns a completed
outcome whose results are whatever _execute_research_plan produced. No
failed status exists in the code; the status-error outcome (with task_id
unknown) could arise only from an exception outside plan execution, and
it would leave the stored run status untouched. -/
theorem handle_marks_completed (env : DelegateEnv) (parsed : Option Json)
    (task_id : String) (now : Int) (query session_id : String)
    (active_tasks : List (String × TaskRun)) :
    (handle_research_request env parsed task_id now query session_id
        active_tasks).1.status = "completed" ∧
    (handle_research_request env parsed task_id now query session_id
        active_tasks).1.error = none ∧
    (handle_research_request env parsed task_id now query session_id
        active_tasks).1.results =
      execute_research_plan env (create_research_plan parsed query) ∧
    (dictGet (handle_research_request env parsed task_id now query
        session_id active_tasks).2 task_id).map TaskRun.status =
      some "completed" := by
  refine ⟨rfl, rfl, rfl, ?_⟩
  simp only [handle_research_request]
  rw [dictGet_dictSet]
  rfl

/-- Claim C9: the order in which _execute_research_plan processes plan
items — executionOrder, the stable ascending sort on the priority key that
the execute loop folds over — is pairwise non-decreasing on priority, is a
permutation of the input plan, and restricted to any fixed priority equals
the input subsequence of that priority (ties broken by input order). -/
theorem execution_priority_order (tasks : List Json) :
    List.Pairwise (fun a b => taskPriority a ≤ taskPriority b)
        (executionOrder tasks) ∧
    List.Perm (executionOrder tasks) tasks ∧
    (∀ k : Int,
      (executionOrder tasks).filter (fun t => decide (taskPriority t = k)) =
        tasks.filter (fun t => decide (taskPriority t = k))) := by
  refine ⟨?_, perm_stableSortBy _ tasks, ?_⟩
  · have h := pairwise_stableSortBy
      (fun a b => decide (taskPriority a < taskPriority b))
      (fun a b hab => by
        simp only [decide_eq_true_eq] at hab
        simp only [decide_eq_false_iff_not]
        omega)
      (fun a b c hba hcb => by
        simp only [decide_eq_false_iff_not] at hba hcb ⊢
        omega)
      tasks
    exact h.imp (fun hab => by
      simp only [decide_eq_false_iff_not] at hab
      omega)
  · intro k
    exact filter_stableSortBy _ _
      (fun a b ha hb => by
        simp only [decide_eq_true_eq] at ha hb
        simp only [decide_eq_false_iff_not]
        omega) tasks

theorem dictGet_none_mem {m : List (String × β)} {k : String}
    (h : dictGet m k = none) : ∀ p ∈ m, p.1 ≠ k := by
  induction m with
  | nil => intro p hp; simp at hp
  | cons q qs ih =>
    intro p hp
    simp only [dictGet] at h
    by_cases hq : q.1 = k
    · rw [if_pos hq] at h; exact absurd h (by simp)
    · rw [if_neg hq] at h
      rcases List.mem_cons.mp hp with rfl | hp2
      · exact hq
      · exact ih h p hp2

theorem dictSet_fresh_append {m : List (String × β)} {k : String}
    (h : dictGet m k = none) (v : β) : dictSet m k v = m ++ [(k, v)] := by
  induction m with
  | nil => simp [dictSet]
  | cons q qs ih =>
    simp only [dictGet] at h
    by_cases hq : q.1 = k
    · rw [if_pos hq] at h; exact absurd h (by simp)
    · rw [if_neg hq] at h
      simp only [dictSet, if_neg hq, List.cons_append, List.cons.injEq,
        true_and]
      exact ih h

theorem dictDel_sublist (m : List (String × β)) (k : String) :
    List.Sublist (dictDel m k) m := by
  induction m with
  | nil => simp [dictDel]
  | cons p ps ih =>
    simp only [dictDel]
    by_cases hp : p.1 = k
    · rw [if_pos hp]; exact (List.Sublist.refl ps).cons p
    · rw [if_neg hp]; exact ih.cons₂ p

theorem dictDel_eq_nil {m : List (String × β)} {k : String}
    (h : dictDel m k = []) : m = [] ∨ ∃ v, m = [(k, v)] := by
  cases m with
  | nil => exact Or.inl rfl
  | cons p ps =>
    simp only [dictDel] at h
    by_cases hp : p.1 = k
    · rw [if_pos hp] at h
      right
      exact ⟨p.2, by rw [h, ← hp]⟩
    · rw [if_neg hp] at h
      exact absurd h (by simp)

theorem keys_singleton_del {m : List (String × β)} {k : String}
    (h : m.map Prod.fst = [k]) : dictDel m k = [] := by
  cases m with
  | nil => simp at h
  | cons p ps =>
    simp only [List.map_cons, List.cons.injEq] at h
    have hps : ps = [] := by
      cases ps with
      | nil => rfl
      | cons q qs => simp at h
    subst hps
    simp [dictDel, h.1]

theorem buildEmb_keys (row : Nat → V) :
    ∀ (i : Nat) (l : List (String × IndexedDoc)),
      (buildEmb row i l).map Prod.fst = l.map Prod.fst := by
  intro i l
  induction l generalizing i with
  | nil => simp [buildEmb]
  | cons p ps ih => simp [buildEmb, ih]

theorem update_embeddings_docs (fit : List String → Except String (Nat → V))
    (s : VectorStore V) :
    (update_embeddings fit s).documents = s.documents := by
  unfold update_embeddings
  by_cases hd : s.documents.isEmpty
  · simp [hd]
  · simp only [hd, Bool.false_eq_true, if_false]
    cases hf : fit (s.documents.map (fun p => p.2.content)) <;> simp

theorem update_embeddings_inv (fit : List String → Except String (Nat → V))
    (s : VectorStore V) (hs : EmbKeysInv s) :
    EmbKeysInv (update_embeddings fit s) := by
  unfold update_embeddings
  by_cases hd : s.documents.isEmpty
  · simpa [hd] using hs
  · simp only [hd, Bool.false_eq_true, if_false]
    cases hf : fit (s.documents.map (fun p => p.2.content)) with
    | error e => intro hfit; simp at hfit
    | ok row => intro _; simpa using buildEmb_keys row 0 s.documents

theorem update_embeddings_inv_nonempty
    (fit : List String → Except String (Nat → V)) (s : VectorStore V)
    (hd : s.documents.isEmpty = false) :
    EmbKeysInv (update_embeddings fit s) := by
  unfold update_embeddings
  simp only [hd, Bool.false_eq_true, if_false]
  cases hf : fit (s.documents.map (fun p => p.2.content)) with
  | error e => intro hfit; simp at hfit
  | ok row => intro _; simpa using buildEmb_keys row 0 s.documents

theorem update_embeddings_vec (fit : List String → Except String (Nat → V))
    (s : VectorStore V) (hv : s.vec_fitted = true) :
    (update_embeddings fit s).vec_fitted = true := by
  unfold update_embeddings
  by_cases hd : s.documents.isEmpty
  · simpa [hd] using hv
  · simp only [hd, Bool.false_eq_true, if_false]
    cases hf : fit (s.documents.map (fun p => p.2.content)) with
    | ok row => simp
    | error e => simpa using hv

theorem eq_nil_of_isEmpty {l : List α} (h : l.isEmpty = true) : l = [] := by
  cases l with
  | nil => rfl
  | cons a t => simp [List.isEmpty] at h

theorem isEmpty_append_singleton (l : List α) (a : α) :
    (l ++ [a]).isEmpty = false := by
  cases l <;> rfl

theorem StoreWF_of_docs_eq (md5Hex : String → String)
    {s t : VectorStore V} (h : t.documents = s.documents)
    (hs : StoreWF md5Hex s) : StoreWF md5Hex t := by
  unfold StoreWF at hs ⊢
  rw [h]
  exact hs

theorem search_snd (fit : List String → Except String (Nat → V))
    (sim : String → V → ℚ) (s : VectorStore V) (q : String) (k : Nat) :
    (search fit sim s q k).2 = s ∨
    (search fit sim s q k).2 = update_embeddings fit s := by
  unfold search
  by_cases hd : s.documents.isEmpty
  · simp [hd]
  · simp only [hd, Bool.false_eq_true, if_false]
    by_cases hfit : s.is_fitted
    · left
      by_cases hv : s.vec_fitted = false <;> simp [hfit, hv]
    · right
      by_cases hv : (update_embeddings fit s).vec_fitted = false <;>
        simp [hfit, hv]

theorem search_snd_docs (fit : List String → Except String (Nat → V))
    (sim : String → V → ℚ) (s : VectorStore V) (q : String) (k : Nat) :
    (search fit sim s q k).2.documents = s.documents := by
  rcases search_snd fit sim s q k with h | h
  · rw [h]
  · rw [h]; exact update_embeddings_docs fit s

theorem search_snd_inv (fit : List String → Except String (Nat → V))
    (sim : String → V → ℚ) (s : VectorStore V) (q : String) (k : Nat)
    (hs : EmbKeysInv s) : EmbKeysInv (search fit sim s q k).2 := by
  rcases search_snd fit sim s q k with h | h
  · rw [h]; exact hs
  · rw [h]; exact update_embeddings_inv fit s hs

theorem add_document_wf_inv (md5Hex : String → String)
    (fit : List String → Except String (Nat → V)) (s : VectorStore V)
    (i c : String) (meta : List (String × Json))
    (hs : EmbKeysInv s ∧ StoreWF md5Hex s) :
    EmbKeysInv (add_document md5Hex fit s i c meta) ∧
      StoreWF md5Hex (add_document md5Hex fit s i c meta) := by
  unfold add_document
  by_cases hpres : (dictGet s.documents (md5Hex c)).isSome
  · simpa [hpres] using hs
  · have hnone : dictGet s.documents (md5Hex c) = none :=
      Option.not_isSome_iff_eq_none.mp hpres
    have happ := dictSet_fresh_append hnone
      (⟨i, c, meta⟩ : IndexedDoc)
    simp only [hpres, Bool.false_eq_true, if_false]
    have hwf2 : StoreWF md5Hex
        { s with documents := dictSet s.documents (md5Hex c) ⟨i, c, meta⟩ } := by
      constructor
      · intro p hp
        simp only [happ] at hp
        rcases List.mem_append.mp hp with hp1 | hp1
        · exact hs.2.1 p hp1
        · simp only [List.mem_singleton] at hp1
          subst hp1
          rfl
      · simp only [happ, List.map_append, List.map_cons, List.map_nil]
        rw [List.nodup_append]
        refine ⟨hs.2.2, List.nodup_singleton _, ?_⟩
        intro a ha
        simp only [List.mem_singleton]
        rcases List.mem_map.mp ha with ⟨p, hp, rfl⟩
        intro hcontr
        exact dictGet_none_mem hnone p hp (by simpa using hcontr)
    constructor
    · refine update_embeddings_inv_nonempty fit _ ?_
      simp only [happ]
      exact isEmpty_append_singleton _ _
    · exact StoreWF_of_docs_eq md5Hex (update_embeddings_docs fit _) hwf2

theorem remove_document_wf_inv (md5Hex : String → String)
    (fit : List String → Except String (Nat → V)) (s : VectorStore V)
    (i : String) (hs : EmbKeysInv s ∧ StoreWF md5Hex s) :
    EmbKeysInv (remove_document fit s i).2 ∧
      StoreWF md5Hex (remove_document fit s i).2 := by
  unfold remove_document
  cases hfind : s.documents.find? (fun p => decide (p.2.id = i)) with
  | none => simpa using hs
  | some p =>
    simp only
    have hwf2 : StoreWF md5Hex
        { s with
            documents := dictDel s.documents p.1,
            embeddings := dictDel s.embeddings p.1 } := by
      constructor
      · intro q hq
        exact hs.2.1 q ((dictDel_sublist s.documents p.1).subset hq)
      · exact hs.2.2.sublist ((dictDel_sublist s.documents p.1).map Prod.fst)
    constructor
    · by_cases hd : (dictDel s.documents p.1).isEmpty
      · have hdocs := eq_nil_of_isEmpty hd
        unfold update_embeddings
        simp only [hd, if_true]
        intro hfit
        simp only [hdocs, List.map_nil]
        rcases dictDel_eq_nil hdocs with hnil | ⟨v, hsingle⟩
        · rw [hnil] at hfind
          simp [List.find?] at hfind
        · have hkeys := hs.1 hfit
          rw [hsingle] at hkeys
          simp only [List.map_cons, List.map_nil] at hkeys
          rw [keys_singleton_del hkeys]
          simp
      · exact update_embeddings_inv_nonempty fit _ (by simpa using hd)
    · exact StoreWF_of_docs_eq md5Hex (update_embeddings_docs fit _) hwf2

theorem clear_wf_inv (md5Hex : String → String) (s : VectorStore V) :
    EmbKeysInv (clear s) ∧ StoreWF md5Hex (clear s) := by
  refine ⟨?_, ?_, ?_⟩
  · intro h; simp [clear] at h
  · intro p hp; simp [clear] at hp
  · simp [clear]

theorem runOp_wf_inv (md5Hex : String → String)
    (fit : List String → Except String (Nat → V))
    (sim : String → V → ℚ) (s : VectorStore V) (op : StoreOp)
    (hs : EmbKeysInv s ∧ StoreWF md5Hex s) :
    EmbKeysInv (runOp md5Hex fit sim s op) ∧
      StoreWF md5Hex (runOp md5Hex fit sim s op) := by
  cases op with
  | addDoc i c m => exact add_document_wf_inv md5Hex fit s i c m hs
  | removeDoc i => exact remove_document_wf_inv md5Hex fit s i hs
  | clearAll => exact clear_wf_inv md5Hex s
  | searchFor q k =>
    exact ⟨search_snd_inv fit sim s q k hs.1,
      StoreWF_of_docs_eq md5Hex (search_snd_docs fit sim s q k) hs.2⟩

theorem runOps_wf_inv (md5Hex : String → String)
    (fit : List String → Except String (Nat → V))
    (sim : String → V → ℚ) (ops : List StoreOp) :
    EmbKeysInv (runOps md5Hex fit sim ops) ∧
      StoreWF md5Hex (runOps md5Hex fit sim ops) := by
  have hinit : EmbKeysInv (initStore : VectorStore V) ∧
      StoreWF md5Hex (initStore : VectorStore V) := by
    refine ⟨?_, ?_, ?_⟩
    · intro h; simp [initStore] at h
    · intro p hp; simp [initStore] at hp
    · simp [initStore]
  unfold runOps
  generalize (initStore : VectorStore V) = s at hinit ⊢
  induction ops generalizing s with
  | nil => exact hinit
  | cons op ops ih =>
    exact ih _ (runOp_wf_inv md5Hex fit sim s op hinit)

theorem map_eq_of_mem_eq {l : List α} {f g : α → β}
    (h : ∀ a ∈ l, f a = g a) : l.map f = l.map g := by
  induction l with
  | nil => rfl
  | cons a t ih =>
    simp only [List.map_cons]
    rw [h a (by simp), ih (fun b hb => h b (by simp [hb]))]

/-- Claim C10: after any sequence of add_document, remove_document, clear
and search operations from the initial store, whenever the fitted flag is
true the embeddings dict is keyed exactly by the stored documents' keys —
the content fingerprints — in store order: every stored document has
exactly one vector from the current corpus and no vector remains for a
removed document. -/
theorem embeddings_keys_match_documents (md5Hex : String → String)
    (fit : List String → Except String (Nat → V))
    (sim : String → V → ℚ) (ops : List StoreOp)
    (hfit : (runOps md5Hex fit sim ops).is_fitted = true) :
    (runOps md5Hex fit sim ops).embeddings.map Prod.fst =
      (runOps md5Hex fit sim ops).documents.map Prod.fst ∧
    (runOps md5Hex fit sim ops).documents.map Prod.fst =
      (runOps md5Hex fit sim ops).documents.map
        (fun p => md5Hex p.2.content) := by
  refine ⟨(runOps_wf_inv md5Hex fit sim ops).1 hfit, ?_⟩
  exact map_eq_of_mem_eq (runOps_wf_inv md5Hex fit sim ops).2.1

/-- Witness for embeddings_keys_match_documents: one concrete add leaves
the store fitted with the embeddings keyed by the single fingerprint. -/
theorem embeddings_keys_match_documents_witness :
    (runOps id okFit zeroSim [StoreOp.addDoc "a" "solar" []]).is_fitted =
        true ∧
    (runOps id okFit zeroSim [StoreOp.addDoc "a" "solar" []]).embeddings.map
        Prod.fst =
      (runOps id okFit zeroSim
          [StoreOp.addDoc "a" "solar" []]).documents.map Prod.fst :=
  ⟨rfl,
    (embeddings_keys_match_documents id okFit zeroSim
      [StoreOp.addDoc "a" "solar" []] rfl).1⟩

theorem add_document_mem (md5Hex : String → String)
    (fit : List String → Except String (Nat → V)) (s : VectorStore V)
    (i c : String) (meta : List (String × Json)) :
    (dictGet (add_document md5Hex fit s i c meta).documents
        (md5Hex c)).isSome = true := by
  unfold add_document
  by_cases hpres : (dictGet s.documents (md5Hex c)).isSome
  · simp [hpres]
  · have hnone : dictGet s.documents (md5Hex c) = none :=
      Option.not_isSome_iff_eq_none.mp hpres
    simp only [hpres, Bool.false_eq_true, if_false]
    rw [update_embeddings_docs]
    rw [dictGet_dictSet]
    rfl

theorem add_document_noop (md5Hex : String → String)
    (fit : List String → Except String (Nat → V)) (s : VectorStore V)
    (i c : String) (meta : List (String × Json))
    (hpres : (dictGet s.documents (md5Hex c)).isSome = true) :
    add_document md5Hex fit s i c meta = s := by
  unfold add_document
  simp [hpres]

theorem wf_pairwise_contents (md5Hex : String → String)
    {s : VectorStore V} (hwf : StoreWF md5Hex s) :
    List.Pairwise (fun p q => p.2.content ≠ q.2.content) s.documents := by
  have h0 : List.Pairwise (fun a b => a ≠ b)
      (s.documents.map Prod.fst) := hwf.2
  have h1 : List.Pairwise (fun p q => p.1 ≠ q.1) s.documents :=
    List.pairwise_map.mp h0
  refine h1.imp_of_mem ?_
  intro p q hp hq hne hcontr
  apply hne
  rw [hwf.1 p hp, hwf.1 q hq, hcontr]

/-- Claim C7: adding content already stored (under any identifier) is a
no-op — after a first add of content c, a second add of c returns the
store unchanged; on every store reachable from the initial one followed by
an add, no two stored documents have identical content; and adding content
c fresh to a reachable store results in exactly one stored document with
content c. -/
theorem content_dedup (md5Hex : String → String)
    (fit : List String → Except String (Nat → V))
    (sim : String → V → ℚ) (ops : List StoreOp)
    (i1 i2 c : String) (m1 m2 : List (String × Json)) :
    add_document md5Hex fit
        (add_document md5Hex fit (runOps md5Hex fit sim ops) i1 c m1)
        i2 c m2 =
      add_document md5Hex fit (runOps md5Hex fit sim ops) i1 c m1 ∧
    List.Pairwise (fun p q => p.2.content ≠ q.2.content)
      (runOps md5Hex fit sim ops).documents ∧
    List.Pairwise (fun p q => p.2.content ≠ q.2.content)
      (add_document md5Hex fit (runOps md5Hex fit sim ops) i1 c
          m1).documents ∧
    (dictGet (runOps md5Hex fit sim ops).documents (md5Hex c) = none →
      ((add_document md5Hex fit (runOps md5Hex fit sim ops) i1 c
            m1).documents.filter
          (fun p => decide (p.2.content = c))).length = 1) := by
  refine ⟨?_, ?_, ?_, ?_⟩
  · exact add_document_noop md5Hex fit _ i2 c m2
      (add_document_mem md5Hex fit _ i1 c m1)
  · exact wf_pairwise_contents md5Hex (runOps_wf_inv md5Hex fit sim ops).2
  · exact wf_pairwise_contents md5Hex
      (add_document_wf_inv md5Hex fit _ i1 c m1
        (runOps_wf_inv md5Hex fit sim ops)).2
  · intro hfresh
    have hwf := (runOps_wf_inv md5Hex fit sim ops).2
    have hpres : (dictGet (runOps md5Hex fit sim ops).documents
        (md5Hex c)).isSome = false := by simp [hfresh]
    unfold add_document
    simp only [hpres, Bool.false_eq_true, if_false]
    rw [update_embeddings_docs]
    rw [dictSet_fresh_append hfresh (⟨i1, c, m1⟩ : IndexedDoc)]
    rw [List.filter_append]
    have hold : (runOps md5Hex fit sim ops).documents.filter
        (fun p => decide (p.2.content = c)) = [] := by
      rw [List.filter_eq_nil_iff]
      intro p hp hcontr
      simp only [decide_eq_true_eq] at hcontr
      exact dictGet_none_mem hfresh p hp (by rw [hwf.1 p hp, hcontr])
    rw [hold]
    simp

/-- Witness for content_dedup: the spec's example document added twice
under identifiers a and b leaves exactly one stored document, and the
second add is the identity. -/
theorem content_dedup_witness :
    dictGet (runOps id okFit zeroSim []).documents
        "Solar panel costs fell 20% in 2023." = none ∧
    ((add_document id okFit (runOps id okFit zeroSim []) "a"
          "Solar panel costs fell 20% in 2023." []).documents.filter
        (fun p =>
          decide (p.2.content = "Solar panel costs fell 20% in 2023."))).length
      = 1 ∧
    add_document id okFit
        (add_document id okFit (runOps id okFit zeroSim []) "a"
          "Solar panel costs fell 20% in 2023." []) "b"
        "Solar panel costs fell 20% in 2023." [] =
      add_document id okFit (runOps id okFit zeroSim []) "a"
        "Solar panel costs fell 20% in 2023." [] :=
  ⟨rfl,
    (content_dedup id okFit zeroSim [] "a" "b"
      "Solar panel costs fell 20% in 2023." [] []).2.2.2 rfl,
    (content_dedup id okFit zeroSim [] "a" "b"
      "Solar panel costs fell 20% in 2023." [] []).1⟩

theorem update_embeddings_ok (fit : List String → Except String (Nat → V))
    (s : VectorStore V) (row : Nat → V)
    (hd : s.documents.isEmpty = false)
    (hfit : fit (s.documents.map fun p => p.2.content) = .ok row) :
    update_embeddings fit s =
      { s with
          is_fitted := true, vec_fitted := true,
          embeddings := buildEmb row 0 s.documents } := by
  unfold update_embeddings
  simp [hd, hfit]

theorem search_fitted_snd (fit : List String → Except String (Nat → V))
    (sim : String → V → ℚ) (t : VectorStore V) (q : String) (k : Nat)
    (hfit : t.is_fitted = true) : (search fit sim t q k).2 = t := by
  unfold search
  by_cases hd : t.documents.isEmpty
  · simp [hd]
  · simp only [hd, Bool.false_eq_true, if_false]
    by_cases hv : t.vec_fitted = false <;> simp [hfit, hv]

/-- Counterexample to claim C3: immediately after add_document stores new
content, the index is already fitted and the term vectors are already
rebuilt (one embedding keyed by the new fingerprint), and the next search
performs no rebuild and returns the store unchanged — the rebuild is
eager at mutation time, not lazy at search time. -/
theorem add_rebuild_counterexample :
    eagerAddStore.is_fitted = true ∧
    eagerAddStore.embeddings.map Prod.fst = ["hello"] ∧
    (search okFit zeroSim eagerAddStore "q" 5).2 = eagerAddStore :=
  ⟨rfl, rfl, rfl⟩

/-- Claim C3 as amended: add_document that stores new (non-duplicate)
content performs the full term-vector rebuild over the current corpus
immediately, at mutation time: when the re-fit succeeds the returned store
is fitted and its embeddings are the freshly built rows over the updated
corpus. search never rebuilds a fitted store: on any store whose fitted
flag is set it returns the store unchanged; a rebuild at search time
happens only when the store is unfitted (after clear or a failed
re-fit). -/
theorem add_document_eager_rebuild (md5Hex : String → String)
    (fit : List String → Except String (Nat → V))
    (sim : String → V → ℚ) (s : VectorStore V) (i c : String)
    (meta : List (String × Json)) (row : Nat → V)
    (hnew : dictGet s.documents (md5Hex c) = none)
    (hfit : fit ((dictSet s.documents (md5Hex c)
        (⟨i, c, meta⟩ : IndexedDoc)).map (fun p => p.2.content)) =
      .ok row) :
    (add_document md5Hex fit s i c meta).is_fitted = true ∧
    (add_document md5Hex fit s i c meta).vec_fitted = true ∧
    (add_document md5Hex fit s i c meta).embeddings =
      buildEmb row 0 (add_document md5Hex fit s i c meta).documents ∧
    (∀ (t : VectorStore V) (q : String) (k : Nat), t.is_fitted = true →
      (search fit sim t q k).2 = t) := by
  have hpres : (dictGet s.documents (md5Hex c)).isSome = false := by
    simp [hnew]
  have hd2 : (dictSet s.documents (md5Hex c)
      (⟨i, c, meta⟩ : IndexedDoc)).isEmpty = false := by
    rw [dictSet_fresh_append hnew]
    exact isEmpty_append_singleton _ _
  unfold add_document
  simp only [hpres, Bool.false_eq_true, if_false]
  rw [update_embeddings_ok fit _ row hd2 hfit]
  exact ⟨rfl, rfl, rfl, fun t q k h => search_fitted_snd fit sim t q k h⟩

/-- Witness for add_document_eager_rebuild: the concrete one-add store is
fitted and a search on it leaves it unchanged. -/
theorem add_document_eager_rebuild_witness :
    eagerAddStore.is_fitted = true ∧
    (search okFit zeroSim eagerAddStore "query" 3).2 = eagerAddStore :=
  ⟨(add_document_eager_rebuild id okFit zeroSim initStore "a" "hello" []
      (fun _ => 0) rfl rfl).1,
    (add_document_eager_rebuild id okFit zeroSim initStore "a" "hello" []
      (fun _ => 0) rfl rfl).2.2.2 eagerAddStore "query" 3
      (add_document_eager_rebuild id okFit zeroSim initStore "a" "hello" []
        (fun _ => 0) rfl rfl).1⟩

theorem searchOrder_stable (sim : String → V → ℚ) (st : VectorStore V)
    (q : String) (c : ℚ) :
    (searchOrder sim st q).filter (fun t => decide (t.2.1 = c)) =
      (scoredCandidates sim st q).filter (fun t => decide (t.2.1 = c)) := by
  unfold searchOrder
  exact filter_stableSortBy _ _
    (fun a b ha hb => by
      simp only [decide_eq_true_eq] at ha hb
      simp only [decide_eq_false_iff_not, ha, hb]
      exact lt_irrefl c) _

theorem searchOrder_sorted (sim : String → V → ℚ) (st : VectorStore V)
    (q : String) :
    List.Pairwise (fun a b => b.2.1 ≤ a.2.1) (searchOrder sim st q) := by
  unfold searchOrder
  have h := pairwise_stableSortBy (fun a b => decide (b.2.1 < a.2.1))
    (fun a b hab => by
      simp only [decide_eq_true_eq] at hab
      simp only [decide_eq_false_iff_not]
      exact lt_asymm hab)
    (fun a b c hba hcb => by
      simp only [decide_eq_false_iff_not] at hba hcb ⊢
      exact not_lt.mpr (le_trans (not_lt.mp hcb) (not_lt.mp hba)))
    (scoredCandidates sim st q)
  exact h.imp (fun hab => by
    simp only [decide_eq_false_iff_not] at hab
    exact not_lt.mp hab)

/-- Claim C6: search on an empty index returns the empty sequence; search
returns at most top_k hits, ordered by non-increasing similarity score
with ties broken by insertion order (the stable descending sort keeps the
documents-dict order within each score class); and every returned content
field is the stored content truncated to 500 characters with an appended
ellipsis marker exactly when the stored content exceeds 500 characters. -/
theorem search_ranking (fit : List String → Except String (Nat → V))
    (sim : String → V → ℚ) (s : VectorStore V) (q : String) (k : Nat) :
    (s.documents.isEmpty = true → (search fit sim s q k).1 = []) ∧
    (search fit sim s q k).1.length ≤ k ∧
    List.Pairwise (fun a b => b.score ≤ a.score) (search fit sim s q k).1 ∧
    (∀ c : ℚ,
      (searchOrder sim (search fit sim s q k).2 q).filter
          (fun t => decide (t.2.1 = c)) =
        (scoredCandidates sim (search fit sim s q k).2 q).filter
          (fun t => decide (t.2.1 = c))) ∧
    (∀ r ∈ (search fit sim s q k).1,
      ∃ p ∈ (search fit sim s q k).2.documents,
        r.id = p.2.id ∧ r.metadata = p.2.metadata ∧
        r.content = (if p.2.content.length > 500
          then p.2.content.take 500 ++ "..." else p.2.content)) := by
  by_cases hd : s.documents.isEmpty
  · have hsearch : search fit sim s q k = ([], s) := by
      unfold search; simp [hd]
    rw [hsearch]
    exact ⟨fun _ => rfl, by simp, by simp,
      fun c => searchOrder_stable sim s q c, by simp⟩
  · by_cases hv :
        (if s.is_fitted then s else update_embeddings fit s).vec_fitted =
          false
    · have hsearch : search fit sim s q k =
          ([], if s.is_fitted then s else update_embeddings fit s) := by
        unfold search; simp [hd, hv]
      rw [hsearch]
      exact ⟨fun h => absurd h hd, by simp, by simp,
        fun c => searchOrder_stable sim _ q c, by simp⟩
    · have hsearch : search fit sim s q k =
          (((searchOrder sim
              (if s.is_fitted then s else update_embeddings fit s)
              q).take k).map (fun t =>
            { id := t.2.2.id, score := t.2.1,
              content := truncateContent t.2.2.content,
              metadata := t.2.2.metadata }),
            if s.is_fitted then s else update_embeddings fit s) := by
        unfold search; simp [hd, hv]
      rw [hsearch]
      refine ⟨fun h => absurd h hd, ?_, ?_, ?_, ?_⟩
      · simp only [List.length_map, List.length_take]
        exact Nat.min_le_left _ _
      · refine List.pairwise_map.mpr ?_
        exact (searchOrder_sorted sim _ q).sublist (List.take_sublist k _)
      · intro c
        exact searchOrder_stable sim _ q c
      · intro r hr
        obtain ⟨t, ht, rfl⟩ := List.mem_map.mp hr
        have ht2 : t ∈ searchOrder sim
            (if s.is_fitted then s else update_embeddings fit s) q :=
          List.mem_of_mem_take ht
        have ht3 : t ∈ scoredCandidates sim
            (if s.is_fitted then s else update_embeddings fit s) q := by
          unfold searchOrder at ht2
          exact (perm_stableSortBy _ _).mem_iff.mp ht2
        obtain ⟨p, hp, heq⟩ := List.mem_filterMap.mp ht3
        refine ⟨p, hp, ?_⟩
        cases hget : dictGet
            (if s.is_fitted then s else update_embeddings fit s).embeddings
            p.1 with
        | none => rw [hget] at heq; simp at heq
        | some v =>
          rw [hget] at heq
          injection heq with heq2
          subst heq2
          exact ⟨rfl, rfl, rfl⟩

/-- Witness for search_ranking: search on the fresh empty store returns
the empty sequence. -/
theorem search_ranking_witness :
    (initStore : VectorStore ℚ).documents.isEmpty = true ∧
    (search okFit zeroSim (initStore : VectorStore ℚ) "q" 3).1 = [] :=
  ⟨rfl, (search_ranking okFit zeroSim initStore "q" 3).1 rfl⟩

end ScholarNet
